import Mathlib

/-!
Verification of the `boolenum` derive macro (src/lib.rs).

The macro receives a parsed declaration (`syn::DeriveInput`), checks that it
is an enum, that every variant is unit-like, and that the variant names,
sorted lexicographically, are `["No", "Yes"]` or `["False", "True"]`; it then
emits `From<bool>`, `Into<bool>` and `Not` impls for the enum.  We embed the
input shape, the validation pipeline and the semantics of the emitted impls.
-/

/-- Field shape of an enum variant, mirroring `syn::Fields`
(`Unit`, `Named`, `Unnamed`). -/
inductive Fields where
  | unit
  | named
  | unnamed
deriving DecidableEq, Repr

/-- An enum variant as the macro sees it: its identifier and its field shape. -/
structure Variant where
  ident : String
  fields : Fields
deriving DecidableEq, Repr

/-- The declaration's data, mirroring `syn::Data`
(`Enum`, `Struct`, `Union`). -/
inductive Data where
  | enumData (variants : List Variant)
  | structData
  | unionData
deriving DecidableEq, Repr

/-- The parsed derive input, mirroring `syn::DeriveInput`:
the declaration identifier and its data. -/
structure DeriveInput where
  ident : String
  data : Data
deriving DecidableEq, Repr

/-- The diagnostics the macro can abort with, each carrying the identifier it
is attached to, its message, and (where the source supplies one) the
suggested-fix hint. -/
inductive DeriveError where
  | invalidTarget (ident : String) (msg : String)
  | variantHasFields (variantIdent : String) (msg : String) (hint : String)
  | invalidVariantNames (ident : String) (msg : String) (hint : String)
deriving DecidableEq, Repr

/-- Message of the non-enum abort in src/lib.rs. -/
def msgInvalidTarget : String := "BoolEnum can only be used on enums."

/-- Message of the non-unit-variant abort in src/lib.rs. -/
def msgVariantHasFields : String :=
  "BoolEnum can only be used on enums with unit-like variants"

/-- Message of the bad-variant-names abort in src/lib.rs. -/
def msgInvalidVariantNames : String :=
  "BoolEnum can only be used on enums with two variants named No and Yes, or False and True."

/-- The suggested-fix hint of src/lib.rs, formatted with the declaration
identifier: `try enum NAME \x7b No, Yes \x7d` (backquoted in the source). -/
def fixHint (ident : String) : String :=
  "try `enum " ++ ident ++ " \x7b No, Yes \x7d`"

/-- The emitted code, identified by what varies in it: the enum name and the
identifiers spliced in for the falsy (`no`) and truthy (`yes`) variants. -/
structure GeneratedUnit where
  name : String
  no : String
  yes : String
deriving DecidableEq, Repr

/-- Semantics of the emitted `From<bool>` impl:
`fn from(b: bool) -> Self \x7b if b \x7b Self::yes \x7d else \x7b Self::no \x7d \x7d`.
A value of the generated enum is represented by its variant identifier. -/
def GeneratedUnit.fromBool (g : GeneratedUnit) (b : Bool) : String :=
  if b then g.yes else g.no

/-- Semantics of the emitted `Into<bool>` impl:
`match self \x7b Self::no => false, Self::yes => true \x7d`.
Arms are tried in source order; a value matching neither arm has no result. -/
def GeneratedUnit.intoBool (g : GeneratedUnit) (v : String) : Option Bool :=
  if v = g.no then some false
  else if v = g.yes then some true
  else none

/-- Semantics of the emitted `Not` impl (with `type Output = Self`):
`match self \x7b Self::no => Self::yes, Self::yes => Self::no \x7d`. -/
def GeneratedUnit.notImpl (g : GeneratedUnit) (v : String) : Option String :=
  if v = g.no then some g.yes
  else if v = g.yes then some g.no
  else none

/-- `enum_variant_names` from src/lib.rs: the variant identifiers in
declaration order. -/
def enum_variant_names (variants : List Variant) : List String :=
  variants.map Variant.ident

/-- The variant at which the macro's per-variant field-check loop aborts:
the first variant, in declaration order, whose fields are not `Unit`. -/
def firstNonUnitVariant : List Variant → Option Variant
  | [] => none
  | v :: vs =>
    match v.fields with
    | Fields.unit => firstNonUnitVariant vs
    | _ => some v

/-- The lexicographic order on identifiers that `Vec<String>::sort()` sorts
by, stated on the underlying character lists so that it evaluates by kernel
reduction; `identLe_iff` below shows it is the order on `String`. -/
def identLe (a b : String) : Prop := a.data ≤ b.data

instance : DecidableRel identLe := fun a b =>
  (inferInstance : Decidable (a.data ≤ b.data))

theorem identLe_iff (a b : String) : identLe a b ↔ a ≤ b := by
  rw [identLe, String.le_iff_toList_le]
  rfl

instance : IsTotal String identLe :=
  ⟨fun a b => by
    rw [identLe_iff, identLe_iff]
    exact le_total a b⟩

instance : IsTrans String identLe :=
  ⟨fun a b c hab hbc =>
    (identLe_iff a c).mpr (le_trans ((identLe_iff a b).mp hab) ((identLe_iff b c).mp hbc))⟩

instance : IsAntisymm String identLe :=
  ⟨fun a b hab hba => le_antisymm ((identLe_iff a b).mp hab) ((identLe_iff b a).mp hba)⟩

/-- `vnames.sort()` from src/lib.rs applied to the variant names:
the names sorted lexicographically. -/
def sortedVariantNames (variants : List Variant) : List String :=
  (enum_variant_names variants).insertionSort identLe

/-- The derive entry point of src/lib.rs: check the declaration is an enum
(else abort `InvalidTarget`), check every variant is unit-like (else abort
`VariantHasFields` at the first offender), sort the variant names and match
them against `["No", "Yes"]` and `["False", "True"]` (else abort
`InvalidVariantNames`), then emit the three impls with the matched pair. -/
def derive (input : DeriveInput) : Except DeriveError GeneratedUnit :=
  match input.data with
  | Data.enumData variants =>
    match firstNonUnitVariant variants with
    | some v =>
      Except.error
        (DeriveError.variantHasFields v.ident msgVariantHasFields (fixHint input.ident))
    | none =>
      if sortedVariantNames variants = ["No", "Yes"] then
        Except.ok ⟨input.ident, "No", "Yes"⟩
      else if sortedVariantNames variants = ["False", "True"] then
        Except.ok ⟨input.ident, "False", "True"⟩
      else
        Except.error
          (DeriveError.invalidVariantNames input.ident msgInvalidVariantNames
            (fixHint input.ident))
  | _ => Except.error (DeriveError.invalidTarget input.ident msgInvalidTarget)

instance {ε α : Type} [DecidableEq ε] [DecidableEq α] : DecidableEq (Except ε α)
  | Except.ok x, Except.ok y => decidable_of_iff (x = y) (by simp)
  | Except.error x, Except.error y => decidable_of_iff (x = y) (by simp)
  | Except.ok _, Except.error _ => isFalse (by simp)
  | Except.error _, Except.ok _ => isFalse (by simp)

/-! ### Helper lemmas about the validation pipeline -/

theorem derive_enumData_ok {name : String} {vs : List Variant} {g : GeneratedUnit}
    (h : derive ⟨name, Data.enumData vs⟩ = Except.ok g) :
    firstNonUnitVariant vs = none ∧
      ((sortedVariantNames vs = ["No", "Yes"] ∧ g = ⟨name, "No", "Yes"⟩) ∨
        (sortedVariantNames vs = ["False", "True"] ∧ g = ⟨name, "False", "True"⟩)) := by
  unfold derive at h
  dsimp only at h
  cases hfu : firstNonUnitVariant vs with
  | some v =>
    rw [hfu] at h
    exact absurd h (by simp)
  | none =>
    rw [hfu] at h
    refine ⟨rfl, ?_⟩
    by_cases h1 : sortedVariantNames vs = ["No", "Yes"]
    · rw [if_pos h1] at h
      injection h with h
      exact Or.inl ⟨h1, h.symm⟩
    · rw [if_neg h1] at h
      by_cases h2 : sortedVariantNames vs = ["False", "True"]
      · rw [if_pos h2] at h
        injection h with h
        exact Or.inr ⟨h2, h.symm⟩
      · rw [if_neg h2] at h
        exact absurd h (by simp)

theorem derive_ok_shape {input : DeriveInput} {g : GeneratedUnit}
    (h : derive input = Except.ok g) :
    g.name = input.ident ∧
      ((g.no = "No" ∧ g.yes = "Yes") ∨ (g.no = "False" ∧ g.yes = "True")) := by
  obtain ⟨name, data⟩ := input
  cases data with
  | enumData vs =>
    obtain ⟨-, hcase⟩ := derive_enumData_ok h
    rcases hcase with ⟨-, rfl⟩ | ⟨-, rfl⟩
    · exact ⟨rfl, Or.inl ⟨rfl, rfl⟩⟩
    · exact ⟨rfl, Or.inr ⟨rfl, rfl⟩⟩
  | structData => exact absurd h (by simp [derive])
  | unionData => exact absurd h (by simp [derive])

theorem derive_ok_no_ne_yes {input : DeriveInput} {g : GeneratedUnit}
    (h : derive input = Except.ok g) : g.no ≠ g.yes := by
  obtain ⟨-, hg⟩ := derive_ok_shape h
  rcases hg with ⟨h1, h2⟩ | ⟨h1, h2⟩ <;> rw [h1, h2] <;> decide

theorem notImpl_no (g : GeneratedUnit) : g.notImpl g.no = some g.yes := by
  simp [GeneratedUnit.notImpl]

theorem notImpl_yes {g : GeneratedUnit} (hne : g.no ≠ g.yes) :
    g.notImpl g.yes = some g.no := by
  simp [GeneratedUnit.notImpl, Ne.symm hne]

theorem intoBool_no (g : GeneratedUnit) : g.intoBool g.no = some false := by
  simp [GeneratedUnit.intoBool]

theorem intoBool_yes {g : GeneratedUnit} (hne : g.no ≠ g.yes) :
    g.intoBool g.yes = some true := by
  simp [GeneratedUnit.intoBool, Ne.symm hne]

theorem sortedVariantNames_perm {vs1 vs2 : List Variant} (h : vs1.Perm vs2) :
    sortedVariantNames vs1 = sortedVariantNames vs2 :=
  List.eq_of_perm_of_sorted
    (((List.perm_insertionSort identLe _).trans (h.map Variant.ident)).trans
      (List.perm_insertionSort identLe _).symm)
    (List.sorted_insertionSort identLe _)
    (List.sorted_insertionSort identLe _)

theorem firstNonUnitVariant_eq_none {vs : List Variant}
    (h : ∀ v ∈ vs, v.fields = Fields.unit) : firstNonUnitVariant vs = none := by
  induction vs with
  | nil => rfl
  | cons v rest ih =>
    have hv : v.fields = Fields.unit := h v (List.mem_cons_self v rest)
    have hrest := ih fun w hw => h w (List.mem_cons_of_mem _ hw)
    simp [firstNonUnitVariant, hv, hrest]

theorem firstNonUnitVariant_append {pre : List Variant} {v : Variant} (post : List Variant)
    (hpre : ∀ u ∈ pre, u.fields = Fields.unit) (hv : v.fields ≠ Fields.unit) :
    firstNonUnitVariant (pre ++ v :: post) = some v := by
  induction pre with
  | nil =>
    cases h : v.fields with
    | unit => exact absurd h hv
    | named => simp [firstNonUnitVariant, h]
    | unnamed => simp [firstNonUnitVariant, h]
  | cons u rest ih =>
    have hu : u.fields = Fields.unit := hpre u (List.mem_cons_self u rest)
    have hrest := ih fun w hw => hpre w (List.mem_cons_of_mem _ hw)
    simp [firstNonUnitVariant, hu, hrest]

theorem firstNonUnitVariant_of_ex {vs : List Variant}
    (hex : ∃ v ∈ vs, v.fields ≠ Fields.unit) :
    ∃ w, firstNonUnitVariant vs = some w ∧ w ∈ vs ∧ w.fields ≠ Fields.unit := by
  induction vs with
  | nil => simp at hex
  | cons v rest ih =>
    cases hv : v.fields with
    | unit =>
      obtain ⟨u, hu, hnu⟩ := hex
      rcases List.mem_cons.mp hu with rfl | hmem
      · exact absurd hv hnu
      · obtain ⟨w, hw1, hw2, hw3⟩ := ih ⟨u, hmem, hnu⟩
        exact ⟨w, by simp [firstNonUnitVariant, hv, hw1], List.mem_cons_of_mem _ hw2, hw3⟩
    | named =>
      exact ⟨v, by simp [firstNonUnitVariant, hv], List.mem_cons_self v rest, by simp [hv]⟩
    | unnamed =>
      exact ⟨v, by simp [firstNonUnitVariant, hv], List.mem_cons_self v rest, by simp [hv]⟩

theorem derive_abort_of_firstNonUnit {name : String} {vs : List Variant} {v : Variant}
    (h : firstNonUnitVariant vs = some v) :
    derive ⟨name, Data.enumData vs⟩ =
      Except.error
        (DeriveError.variantHasFields v.ident msgVariantHasFields (fixHint name)) := by
  simp only [derive, h]

/-! ### Concrete declarations used as witnesses -/

/-- The declaration `enum UseColors \x7b No, Yes \x7d` from the crate docs. -/
def useColorsInput : DeriveInput :=
  ⟨"UseColors", Data.enumData [⟨"No", Fields.unit⟩, ⟨"Yes", Fields.unit⟩]⟩

/-- The generated unit for `UseColors`. -/
def useColorsUnit : GeneratedUnit := ⟨"UseColors", "No", "Yes"⟩

/-- The declaration `enum ShowExpired \x7b True, False \x7d` from the crate docs. -/
def showExpiredInput : DeriveInput :=
  ⟨"ShowExpired", Data.enumData [⟨"True", Fields.unit⟩, ⟨"False", Fields.unit⟩]⟩

/-- The generated unit for `ShowExpired`. -/
def showExpiredUnit : GeneratedUnit := ⟨"ShowExpired", "False", "True"⟩

/-- The declaration `enum Verbose \x7b No, Yes \x7d` from the crate docs. -/
def verboseInput : DeriveInput :=
  ⟨"Verbose", Data.enumData [⟨"No", Fields.unit⟩, ⟨"Yes", Fields.unit⟩]⟩

/-- The generated unit for `Verbose`. -/
def verboseUnit : GeneratedUnit := ⟨"Verbose", "No", "Yes"⟩

/-- The declaration `enum Colors \x7b No, Yes \x7d` from the crate docs. -/
def colorsInput : DeriveInput :=
  ⟨"Colors", Data.enumData [⟨"No", Fields.unit⟩, ⟨"Yes", Fields.unit⟩]⟩

/-- The generated unit for `Colors`. -/
def colorsUnit : GeneratedUnit := ⟨"Colors", "No", "Yes"⟩

/-! ### Claim theorems -/

/-- C1: for every valid declaration (one the derive accepts), the emitted
`From<bool>` impl maps `true` to the truthy variant and `false` to the falsy
variant, where the falsy variant is the lexicographically-first name of the
matched canonical pair and the truthy variant is the other. -/
theorem fromBool_maps_roles (input : DeriveInput) (g : GeneratedUnit)
    (h : derive input = Except.ok g) :
    ((g.no = "No" ∧ g.yes = "Yes") ∨ (g.no = "False" ∧ g.yes = "True")) ∧
      g.no < g.yes ∧ g.fromBool true = g.yes ∧ g.fromBool false = g.no := by
  obtain ⟨-, hg⟩ := derive_ok_shape h
  refine ⟨hg, ?_, rfl, rfl⟩
  rcases hg with ⟨h1, h2⟩ | ⟨h1, h2⟩ <;> rw [h1, h2, String.lt_iff_toList_lt] <;> decide

theorem fromBool_maps_roles_witness :
    derive useColorsInput = Except.ok useColorsUnit ∧
      (((useColorsUnit.no = "No" ∧ useColorsUnit.yes = "Yes") ∨
          (useColorsUnit.no = "False" ∧ useColorsUnit.yes = "True")) ∧
        useColorsUnit.no < useColorsUnit.yes ∧
        useColorsUnit.fromBool true = useColorsUnit.yes ∧
        useColorsUnit.fromBool false = useColorsUnit.no) :=
  ⟨by decide, fromBool_maps_roles useColorsInput useColorsUnit (by decide)⟩

/-- C2: for every valid declaration and both booleans, the emitted
`Into<bool>` impl applied to the result of the emitted `From<bool>` impl
returns the boolean it started from. -/
theorem intoBool_fromBool_roundtrip (input : DeriveInput) (g : GeneratedUnit)
    (h : derive input = Except.ok g) (b : Bool) :
    g.intoBool (g.fromBool b) = some b := by
  have hne := derive_ok_no_ne_yes h
  cases b with
  | false =>
    show g.intoBool g.no = some false
    exact intoBool_no g
  | true =>
    show g.intoBool g.yes = some true
    exact intoBool_yes hne

theorem intoBool_fromBool_roundtrip_witness :
    derive showExpiredInput = Except.ok showExpiredUnit ∧
      showExpiredUnit.intoBool (showExpiredUnit.fromBool true) = some true ∧
      showExpiredUnit.intoBool (showExpiredUnit.fromBool false) = some false :=
  ⟨by decide,
    intoBool_fromBool_roundtrip showExpiredInput showExpiredUnit (by decide) true,
    intoBool_fromBool_roundtrip showExpiredInput showExpiredUnit (by decide) false⟩

/-- C3: for every valid declaration, the emitted `Not` impl swaps the falsy
and truthy variants, its results stay among the declaration's own two
variants (its `Output` type is `Self`), and it is self-inverse on both
variants. -/
theorem notImpl_involution (input : DeriveInput) (g : GeneratedUnit)
    (h : derive input = Except.ok g) :
    g.notImpl g.no = some g.yes ∧ g.notImpl g.yes = some g.no ∧
      (∀ v, (v = g.no ∨ v = g.yes) →
        ∃ w, g.notImpl v = some w ∧ (w = g.no ∨ w = g.yes)) ∧
      (∀ v, (v = g.no ∨ v = g.yes) → (g.notImpl v).bind g.notImpl = some v) := by
  have hne := derive_ok_no_ne_yes h
  refine ⟨notImpl_no g, notImpl_yes hne, ?_, ?_⟩
  · intro v hv
    rcases hv with rfl | rfl
    · exact ⟨g.yes, notImpl_no g, Or.inr rfl⟩
    · exact ⟨g.no, notImpl_yes hne, Or.inl rfl⟩
  · intro v hv
    rcases hv with rfl | rfl
    · rw [notImpl_no g, Option.some_bind, notImpl_yes hne]
    · rw [notImpl_yes hne, Option.some_bind, notImpl_no g]

theorem notImpl_involution_witness :
    derive verboseInput = Except.ok verboseUnit ∧
      (verboseUnit.notImpl verboseUnit.no = some verboseUnit.yes ∧
        verboseUnit.notImpl verboseUnit.yes = some verboseUnit.no ∧
        (∀ v, (v = verboseUnit.no ∨ v = verboseUnit.yes) →
          ∃ w, verboseUnit.notImpl v = some w ∧ (w = verboseUnit.no ∨ w = verboseUnit.yes)) ∧
        (∀ v, (v = verboseUnit.no ∨ v = verboseUnit.yes) →
          (verboseUnit.notImpl v).bind verboseUnit.notImpl = some v)) :=
  ⟨by decide, notImpl_involution verboseInput verboseUnit (by decide)⟩

/-- C4: for every valid declaration and both variants, the emitted `Not`
impl never returns its argument, and converting its result with the emitted
`Into<bool>` impl gives the boolean negation of converting the argument. -/
theorem notImpl_ne_and_flips (input : DeriveInput) (g : GeneratedUnit)
    (h : derive input = Except.ok g) (v : String) (hv : v = g.no ∨ v = g.yes) :
    g.notImpl v ≠ some v ∧
      (g.notImpl v).bind g.intoBool = Option.map (fun b => !b) (g.intoBool v) := by
  have hne := derive_ok_no_ne_yes h
  rcases hv with rfl | rfl
  · refine ⟨?_, ?_⟩
    · rw [notImpl_no g]
      intro hc
      exact hne (Option.some.inj hc).symm
    · rw [notImpl_no g, Option.some_bind, intoBool_yes hne, intoBool_no g]
      rfl
  · refine ⟨?_, ?_⟩
    · rw [notImpl_yes hne]
      intro hc
      exact hne (Option.some.inj hc)
    · rw [notImpl_yes hne, Option.some_bind, intoBool_no g, intoBool_yes hne]
      rfl

theorem notImpl_ne_and_flips_witness :
    derive colorsInput = Except.ok colorsUnit ∧
      ("No" = colorsUnit.no ∨ "No" = colorsUnit.yes) ∧
      (colorsUnit.notImpl "No" ≠ some "No" ∧
        (colorsUnit.notImpl "No").bind colorsUnit.intoBool =
          Option.map (fun b => !b) (colorsUnit.intoBool "No")) :=
  ⟨by decide, by decide,
    notImpl_ne_and_flips colorsInput colorsUnit (by decide) "No" (by decide)⟩

/-- C5: two valid declarations with the same name whose variant lists are
permutations of each other produce the same generated unit, hence identical
from-boolean, to-boolean and negation behavior. -/
theorem derive_order_invariant (name : String) (vs1 vs2 : List Variant)
    (hperm : vs1.Perm vs2) (g1 g2 : GeneratedUnit)
    (h1 : derive ⟨name, Data.enumData vs1⟩ = Except.ok g1)
    (h2 : derive ⟨name, Data.enumData vs2⟩ = Except.ok g2) :
    g1 = g2 ∧ (∀ b, g1.fromBool b = g2.fromBool b) ∧
      (∀ v, g1.intoBool v = g2.intoBool v) ∧ (∀ v, g1.notImpl v = g2.notImpl v) := by
  have hsort : sortedVariantNames vs1 = sortedVariantNames vs2 :=
    sortedVariantNames_perm hperm
  obtain ⟨-, hcase1⟩ := derive_enumData_ok h1
  obtain ⟨-, hcase2⟩ := derive_enumData_ok h2
  have hg : g1 = g2 := by
    rcases hcase1 with ⟨hs1, rfl⟩ | ⟨hs1, rfl⟩ <;>
      rcases hcase2 with ⟨hs2, rfl⟩ | ⟨hs2, rfl⟩
    · rfl
    · rw [hsort, hs2] at hs1
      exact absurd hs1 (by decide)
    · rw [hsort, hs2] at hs1
      exact absurd hs1 (by decide)
    · rfl
  exact ⟨hg, fun b => by rw [hg], fun v => by rw [hg], fun v => by rw [hg]⟩

theorem derive_order_invariant_witness :
    [(⟨"No", Fields.unit⟩ : Variant), ⟨"Yes", Fields.unit⟩].Perm
        [⟨"Yes", Fields.unit⟩, ⟨"No", Fields.unit⟩] ∧
      ((⟨"Flag", "No", "Yes"⟩ : GeneratedUnit) = ⟨"Flag", "No", "Yes"⟩ ∧
        (∀ b, (⟨"Flag", "No", "Yes"⟩ : GeneratedUnit).fromBool b =
          (⟨"Flag", "No", "Yes"⟩ : GeneratedUnit).fromBool b) ∧
        (∀ v, (⟨"Flag", "No", "Yes"⟩ : GeneratedUnit).intoBool v =
          (⟨"Flag", "No", "Yes"⟩ : GeneratedUnit).intoBool v) ∧
        (∀ v, (⟨"Flag", "No", "Yes"⟩ : GeneratedUnit).notImpl v =
          (⟨"Flag", "No", "Yes"⟩ : GeneratedUnit).notImpl v)) :=
  ⟨List.Perm.swap _ _ _,
    derive_order_invariant "Flag"
      [⟨"No", Fields.unit⟩, ⟨"Yes", Fields.unit⟩]
      [⟨"Yes", Fields.unit⟩, ⟨"No", Fields.unit⟩]
      (List.Perm.swap _ _ _) _ _ (by decide) (by decide)⟩

/-- C6: for every enum of unit variants whose sorted variant names equal
neither `["No", "Yes"]` nor `["False", "True"]` (any other count or set),
the derive aborts with the `InvalidVariantNames` diagnostic, naming the
declaration and carrying the suggested-fix hint. -/
theorem derive_invalid_names (name : String) (vs : List Variant)
    (hunit : ∀ v ∈ vs, v.fields = Fields.unit)
    (hny : sortedVariantNames vs ≠ ["No", "Yes"])
    (hft : sortedVariantNames vs ≠ ["False", "True"]) :
    derive ⟨name, Data.enumData vs⟩ =
      Except.error
        (DeriveError.invalidVariantNames name msgInvalidVariantNames (fixHint name)) := by
  simp only [derive, firstNonUnitVariant_eq_none hunit, if_neg hny, if_neg hft]

theorem derive_invalid_names_witness :
    (∀ v ∈ [(⟨"No", Fields.unit⟩ : Variant), ⟨"Yes", Fields.unit⟩, ⟨"Maybe", Fields.unit⟩],
        v.fields = Fields.unit) ∧
      sortedVariantNames [⟨"No", Fields.unit⟩, ⟨"Yes", Fields.unit⟩, ⟨"Maybe", Fields.unit⟩] ≠
        ["No", "Yes"] ∧
      sortedVariantNames [⟨"No", Fields.unit⟩, ⟨"Yes", Fields.unit⟩, ⟨"Maybe", Fields.unit⟩] ≠
        ["False", "True"] ∧
      derive ⟨"Tril", Data.enumData
          [⟨"No", Fields.unit⟩, ⟨"Yes", Fields.unit⟩, ⟨"Maybe", Fields.unit⟩]⟩ =
        Except.error
          (DeriveError.invalidVariantNames "Tril" msgInvalidVariantNames (fixHint "Tril")) :=
  ⟨by decide, by decide, by decide,
    derive_invalid_names "Tril"
      [⟨"No", Fields.unit⟩, ⟨"Yes", Fields.unit⟩, ⟨"Maybe", Fields.unit⟩]
      (by decide) (by decide) (by decide)⟩

/-- C7: for every enum in which some variant carries fields, the derive
aborts with the `VariantHasFields` diagnostic, naming an offending variant
and carrying the suggested-fix hint. -/
theorem derive_variant_has_fields (name : String) (vs : List Variant)
    (hex : ∃ v ∈ vs, v.fields ≠ Fields.unit) :
    ∃ w ∈ vs, w.fields ≠ Fields.unit ∧
      derive ⟨name, Data.enumData vs⟩ =
        Except.error
          (DeriveError.variantHasFields w.ident msgVariantHasFields (fixHint name)) := by
  obtain ⟨w, hw1, hw2, hw3⟩ := firstNonUnitVariant_of_ex hex
  exact ⟨w, hw2, hw3, derive_abort_of_firstNonUnit hw1⟩

theorem derive_variant_has_fields_witness :
    (∃ v ∈ [(⟨"No", Fields.unit⟩ : Variant), ⟨"Yes", Fields.unnamed⟩],
        v.fields ≠ Fields.unit) ∧
      ∃ w ∈ [(⟨"No", Fields.unit⟩ : Variant), ⟨"Yes", Fields.unnamed⟩],
        w.fields ≠ Fields.unit ∧
          derive ⟨"Mixed", Data.enumData [⟨"No", Fields.unit⟩, ⟨"Yes", Fields.unnamed⟩]⟩ =
            Except.error
              (DeriveError.variantHasFields w.ident msgVariantHasFields (fixHint "Mixed")) :=
  ⟨⟨⟨"Yes", Fields.unnamed⟩, by decide, by decide⟩,
    derive_variant_has_fields "Mixed" [⟨"No", Fields.unit⟩, ⟨"Yes", Fields.unnamed⟩]
      ⟨⟨"Yes", Fields.unnamed⟩, by decide, by decide⟩⟩

/-- C8: for every declaration that is not an enum (a struct or a union), the
derive aborts with the `InvalidTarget` diagnostic naming the declaration, so
no generated unit is produced. -/
theorem derive_invalid_target (name : String) (d : Data)
    (hd : ∀ vs, d ≠ Data.enumData vs) :
    derive ⟨name, d⟩ = Except.error (DeriveError.invalidTarget name msgInvalidTarget) := by
  cases d with
  | enumData vs => exact absurd rfl (hd vs)
  | structData => rfl
  | unionData => rfl

theorem derive_invalid_target_witness :
    (∀ vs, Data.structData ≠ Data.enumData vs) ∧
      derive ⟨"Point", Data.structData⟩ =
        Except.error (DeriveError.invalidTarget "Point" msgInvalidTarget) :=
  ⟨fun _ h => Data.noConfusion h,
    derive_invalid_target "Point" Data.structData fun _ h => Data.noConfusion h⟩

/-- C9: for every enum that fails both the field check and the name check,
the derive reports `VariantHasFields` (the field check runs first), and the
diagnostic names the first field-carrying variant in declaration order. -/
theorem derive_field_check_first (name : String) (pre post : List Variant) (v : Variant)
    (hpre : ∀ u ∈ pre, u.fields = Fields.unit) (hv : v.fields ≠ Fields.unit)
    (hny : sortedVariantNames (pre ++ v :: post) ≠ ["No", "Yes"])
    (hft : sortedVariantNames (pre ++ v :: post) ≠ ["False", "True"]) :
    derive ⟨name, Data.enumData (pre ++ v :: post)⟩ =
      Except.error
        (DeriveError.variantHasFields v.ident msgVariantHasFields (fixHint name)) :=
  derive_abort_of_firstNonUnit (firstNonUnitVariant_append post hpre hv)

theorem derive_field_check_first_witness :
    (∀ u ∈ [(⟨"A", Fields.unit⟩ : Variant)], u.fields = Fields.unit) ∧
      (⟨"B", Fields.named⟩ : Variant).fields ≠ Fields.unit ∧
      sortedVariantNames
          ([(⟨"A", Fields.unit⟩ : Variant)] ++ ⟨"B", Fields.named⟩ :: [⟨"C", Fields.unnamed⟩]) ≠
        ["No", "Yes"] ∧
      sortedVariantNames
          ([(⟨"A", Fields.unit⟩ : Variant)] ++ ⟨"B", Fields.named⟩ :: [⟨"C", Fields.unnamed⟩]) ≠
        ["False", "True"] ∧
      derive ⟨"Bad", Data.enumData
          ([(⟨"A", Fields.unit⟩ : Variant)] ++ ⟨"B", Fields.named⟩ :: [⟨"C", Fields.unnamed⟩])⟩ =
        Except.error
          (DeriveError.variantHasFields "B" msgVariantHasFields (fixHint "Bad")) :=
  ⟨by decide, by decide, by decide, by decide,
    derive_field_check_first "Bad" [⟨"A", Fields.unit⟩] [⟨"C", Fields.unnamed⟩]
      ⟨"B", Fields.named⟩ (by decide) (by decide) (by decide) (by decide)⟩

/-- C10: an enum with zero variants passes the shape check and (vacuously)
the field check, and aborts with the `InvalidVariantNames` diagnostic, not
`InvalidTarget`. -/
theorem derive_empty_enum (name : String) :
    derive ⟨name, Data.enumData []⟩ =
      Except.error
        (DeriveError.invalidVariantNames name msgInvalidVariantNames (fixHint name)) := rfl
